import Mathlib

/-!
Shallow embedding of the pilot VFR dashboard (`L_Streamlit_1-1.py`): the Term
Aggregator (lines 61, 67-77) and the Rolling Compliance Engine (lines 84-117).

Modelling conventions:
* Calendar dates are integers counting days; `timedelta(days=w)` arithmetic is
  integer addition, and `window_days` is a natural number (UI input, min 1).
* A flight's qualifying VFR duration is stored as whole minutes: the source
  parses `"H:MM" + ":00"` into a timedelta, so every duration has exact minute
  resolution and is non-negative.  Hour values obtained via
  `total_seconds()/3600` are represented exactly in `ℚ` (the Python floats are
  modelled by exact rationals).
* The `None` / `"Never"` sentinel for the expiration date is `Option Int`,
  `none` standing for `"Never"`.
* Python dict iteration over `sorted(events)` keys is modelled by an insertion
  sort that produces the strictly increasing list of distinct keys.
-/

/-- One crew member's participation in one flight leg: a row of the merged
crew/flight/leg frame after date parsing and filtering. -/
structure FlightRecord where
  pilot_id : String
  flight_date : Int
  vfr_minutes : Nat
deriving Repr, DecidableEq

/-- Hours represented by a record's VFR duration: `total_seconds()/3600`,
exact in `ℚ` since durations are whole minutes. -/
def hoursOf (r : FlightRecord) : ℚ := (r.vfr_minutes : ℚ) / 60

/-- Sum of the VFR hours of a list of records. -/
def sumH (l : List FlightRecord) : ℚ := (l.map hoursOf).sum

/-- Window-membership test of source line 93: `flt date > today - window_days`
and `flt date <= today` (strict lower bound, inclusive upper bound). -/
def inWindow (today : Int) (w : Nat) (d : Int) : Bool :=
  decide (today - (w : Int) < d) && decide (d ≤ today)

/-- Records of a pilot's group that fall in the trailing window (line 93 and
again line 99). -/
def windowRecords (recs : List FlightRecord) (today : Int) (w : Nat) :
    List FlightRecord :=
  recs.filter (fun r => inWindow today w r.flight_date)

/-- Source line 93: `curr_hours`, the sum of in-window VFR seconds divided by
3600. -/
def windowTotal (recs : List FlightRecord) (today : Int) (w : Nat) : ℚ :=
  (((windowRecords recs today w).map (fun r => (r.vfr_minutes : ℚ) * 60)).sum) / 3600

/-- Insertion of a key into a strictly increasing list, skipping duplicates:
one step of building a Python dict's sorted key list. -/
def insertKey {α : Type} [LinearOrder α] (x : α) : List α → List α
  | [] => [x]
  | y :: ys =>
      if x < y then x :: y :: ys
      else if x = y then y :: ys
      else y :: insertKey x ys

/-- Sorted list of the distinct elements of `l`: models `sorted(d)` for the
keys `d` of a Python dict populated from `l`. -/
def sortDedup {α : Type} [LinearOrder α] : List α → List α
  | [] => []
  | x :: xs => insertKey x (sortDedup xs)

/-- Date at which a record exits the trailing window (source line 100:
`flt date + days_window`). -/
def exitDate (w : Nat) (r : FlightRecord) : Int := r.flight_date + (w : Int)

/-- Hours accumulated in `events[d]` (source lines 101-102): the sum of
per-row `total_seconds()/3600` over selected records exiting at `d`. -/
def eventHoursAt (sel : List FlightRecord) (w : Nat) (d : Int) : ℚ :=
  ((sel.filter (fun r => decide (exitDate w r = d))).map hoursOf).sum

/-- Expiration events of lines 98-102: the dict `{exit date → hours}` as an
association list with strictly increasing dates (iteration order of
`sorted(events)` at line 104). -/
def pilotEvents (sel : List FlightRecord) (w : Nat) : List (Int × ℚ) :=
  (sortDedup (sel.map (exitDate w))).map (fun d => (d, eventHoursAt sel w d))

/-- Loop of source lines 103-108: subtract each event's hours from the running
total; the first event leaving it strictly below `minH` is the expiration.
Returns the expiration (`none` = loop ran out = "Never") and the final value of
`curr`, which line 109 turns into `missing`. -/
def runEvents (minH : ℚ) : ℚ → List (Int × ℚ) → Option Int × ℚ
  | curr, [] => (none, curr)
  | curr, (d, h) :: evs =>
      let c := curr - h
      if c < minH then (some d, c) else runEvents minH c evs

/-- Per-pilot output of the compliance loop: the numeric fields behind the
`{window_days}-day VFR`, `VFR Expiration` and `VFR at Expiration` columns. -/
structure ComplianceRow where
  window_total : ℚ
  expire : Option Int
  missing : ℚ
deriving Repr, DecidableEq

/-- Body of the per-crew compliance loop (source lines 91-109) for one pilot's
group of records. -/
def complianceRow (recs : List FlightRecord) (today : Int) (w : Nat)
    (minH : ℚ) : ComplianceRow :=
  let curr_hours := windowTotal recs today w
  if curr_hours < minH then
    { window_total := curr_hours, expire := some today,
      missing := curr_hours - minH }
  else
    let res := runEvents minH curr_hours (pilotEvents (windowRecords recs today w) w)
    { window_total := curr_hours, expire := res.1, missing := res.2 - minH }

/-- Records inside the inclusive term range (source line 61). -/
def termRecords (recs : List FlightRecord) (s e : Int) : List FlightRecord :=
  recs.filter (fun r => decide (s ≤ r.flight_date) && decide (r.flight_date ≤ e))

/-- Distinct pilot identifiers of a record list, in sorted order (pandas
`groupby` iterates its keys in ascending order). -/
def pilotsOf (l : List FlightRecord) : List String :=
  sortDedup (l.map (fun r => r.pilot_id))

/-- Total qualifying minutes of pilot `p` inside `l` (the `groupby("crew")
["vfr td"].sum()` of line 67, restricted to one pilot). -/
def termMinutes (l : List FlightRecord) (p : String) : Nat :=
  ((l.filter (fun r => decide (r.pilot_id = p))).map (fun r => r.vfr_minutes)).sum

/-- Formatting of source lines 69-72: hours (days*24 + hours of the summed
timedelta), then `:` and the zero-padded minutes component. -/
def fmtHM (m : Nat) : String :=
  toString (m / 60) ++ ":" ++
    (if m % 60 < 10 then "0" ++ toString (m % 60) else toString (m % 60))

/-- Rounding to two decimals (`round(2)` on line 76).  For minute-resolution
inputs `m/60` the scaled value `5*m/3` is never a half-integer, so the
round-half-to-even of numpy and `round` agree. -/
def round2 (q : ℚ) : ℚ := ((round (q * 100) : ℤ) : ℚ) / 100

/-- Decimal-hours column of line 76: `total_seconds().div(3600).round(2)`. -/
def decHours (m : Nat) : ℚ := round2 (((m : ℚ) * 60) / 3600)

/-- Row of the `display_vfr` frame (lines 74-77): formatted term VFR and
rounded decimal hours, indexed by pilot. -/
structure TermRow where
  pilot_id : String
  term_vfr : String
  hours_dec : ℚ
deriving Repr, DecidableEq

/-- Insertion into a list sorted by descending `hours_dec` (the
`sort_values("Hours (dec)", ascending=False)` of line 77). -/
def insertDesc (x : TermRow) : List TermRow → List TermRow
  | [] => [x]
  | y :: ys => if y.hours_dec ≤ x.hours_dec then x :: y :: ys else y :: insertDesc x ys

/-- Sort by descending decimal hours. -/
def sortDesc : List TermRow → List TermRow
  | [] => []
  | x :: xs => insertDesc x (sortDesc xs)

/-- Term Aggregator output (lines 61 and 67-77): one row per pilot having a
record in `[s, e]`, with formatted and decimal totals, sorted by descending
decimal hours. -/
def termTable (recs : List FlightRecord) (s e : Int) : List TermRow :=
  let tr := termRecords recs s e
  sortDesc ((pilotsOf tr).map (fun p =>
    { pilot_id := p, term_vfr := fmtHM (termMinutes tr p),
      hours_dec := decHours (termMinutes tr p) }))

/-- Row appended at source lines 110-117 (numeric fields; the two-decimal
string formatting of `curr_hours` and `missing` is value-preserving and kept
numeric here). -/
structure CountdownRow where
  crew : String
  last_date : Option Int
  term_vfr : String
  row : ComplianceRow
deriving Repr, DecidableEq

/-- Compliance loop over the term-filtered frame (source lines 84-117):
`today` is `term_end`, and `groupby("crew")` iterates every crew of the
term-filtered frame in ascending key order. -/
def complianceTable (recs : List FlightRecord) (s e : Int) (w : Nat)
    (minH : ℚ) : List CountdownRow :=
  let tr := termRecords recs s e
  (pilotsOf tr).map (fun p =>
    let grp := tr.filter (fun r => decide (r.pilot_id = p))
    { crew := p, last_date := (grp.map (fun r => r.flight_date)).max?,
      term_vfr := fmtHM (termMinutes tr p),
      row := complianceRow grp e w minH })

/-- Expiration value in `WithTop ℤ`: a concrete expiration date is itself, and
the `"Never"` sentinel sits above every date. -/
def expVal : Option Int → WithTop Int
  | none => ⊤
  | some d => (d : WithTop Int)

/-- Date of the first event carrying strictly positive hours in an event
list, if any. -/
def firstPosEvent : List (Int × ℚ) → Option Int
  | [] => none
  | (d, h) :: evs => if 0 < h then some d else firstPosEvent evs

/-- Scan of a selected-record list in order: the first record whose removal
(together with every earlier one) leaves the hours of the remaining records
strictly below `m`.  For strictly increasing dates this is exactly what the
event loop computes. -/
def scanTail (m : ℚ) : List FlightRecord → Option FlightRecord
  | [] => none
  | r :: rs => if sumH rs < m then some r else scanTail m rs

/-- Hours of the records of `l` dated at or before `today`. -/
def tailHoursUpper (today : Int) (l : List FlightRecord) : ℚ :=
  sumH (l.filter (fun r => decide (r.flight_date ≤ today)))

/-- Window-independent drop point: the first record dated at or before
`today` after which the remaining at-or-before-`today` hours fall strictly
below `m`. -/
def scanTailUpper (today : Int) (m : ℚ) : List FlightRecord → Option FlightRecord
  | [] => none
  | r :: rs =>
      if r.flight_date ≤ today ∧ tailHoursUpper today rs < m then some r
      else scanTailUpper today m rs

/-- Window hours still standing just after date `e`: the sum over selected
records whose exit date is strictly later than `e`. -/
def remainingAfter (recs : List FlightRecord) (today : Int) (w : Nat)
    (e : Int) : ℚ :=
  sumH ((windowRecords recs today w).filter (fun r => decide (e < exitDate w r)))

/-- Demo pilot of §8 of the spec: flights on 2024-01-15 (10h) and 2024-02-20
(8h), with dates encoded as day offsets from 2024-01-01 = day 0, so the
flights are on days 14 and 50, the reference date 2024-03-01 is day 60,
2024-03-15 is day 74 and 2024-04-20 is day 110. -/
def demoRecs : List FlightRecord :=
  [{ pilot_id := "P", flight_date := 14, vfr_minutes := 600 },
   { pilot_id := "P", flight_date := 50, vfr_minutes := 480 }]

/-- Single pilot with one flight inside the term range `[0, 100]` but outside
the trailing 10-day window ending at the reference date 100. -/
def soloRecs : List FlightRecord :=
  [{ pilot_id := "Q", flight_date := 5, vfr_minutes := 60 }]

/-! Basic facts about hours and sums. -/

theorem hoursOf_nonneg (r : FlightRecord) : 0 ≤ hoursOf r := by
  unfold hoursOf; positivity

theorem sumH_nil : sumH [] = 0 := rfl

theorem sumH_cons (r : FlightRecord) (l : List FlightRecord) :
    sumH (r :: l) = hoursOf r + sumH l := by
  simp [sumH]

theorem sumH_nonneg (l : List FlightRecord) : 0 ≤ sumH l := by
  apply List.sum_nonneg
  intro x hx
  rcases List.mem_map.mp hx with ⟨r, _, rfl⟩
  exact hoursOf_nonneg r

theorem seconds_sum_div (l : List FlightRecord) :
    ((l.map (fun r => (r.vfr_minutes : ℚ) * 60)).sum) / 3600 = sumH l := by
  induction l with
  | nil => simp [sumH]
  | cons r l ih =>
      rw [List.map_cons, List.sum_cons, add_div, ih, sumH_cons]
      congr 1
      unfold hoursOf
      ring

theorem windowTotal_eq_sumH (recs : List FlightRecord) (today : Int) (w : Nat) :
    windowTotal recs today w = sumH (windowRecords recs today w) := by
  unfold windowTotal
  exact seconds_sum_div _

theorem sumH_filter_le (l : List FlightRecord) (p q : FlightRecord → Bool)
    (h : ∀ r, p r = true → q r = true) :
    sumH (l.filter p) ≤ sumH (l.filter q) := by
  induction l with
  | nil => simp [sumH]
  | cons r l ih =>
      rw [List.filter_cons, List.filter_cons]
      by_cases hp : p r = true
      · rw [if_pos hp, if_pos (h r hp), sumH_cons, sumH_cons]
        linarith
      · rw [if_neg hp]
        by_cases hq : q r = true
        · rw [if_pos hq, sumH_cons]
          have := hoursOf_nonneg r
          linarith
        · rw [if_neg hq]
          exact ih

theorem sumH_filter_split (l : List FlightRecord) (p : FlightRecord → Bool) :
    sumH l = sumH (l.filter p) + sumH (l.filter (fun r => ! p r)) := by
  induction l with
  | nil => simp [sumH]
  | cons r l ih =>
      rw [sumH_cons, List.filter_cons, List.filter_cons]
      by_cases hp : p r = true
      · rw [if_pos hp, sumH_cons]
        simp only [hp, Bool.not_true, if_neg]
        simp only [Bool.false_eq_true, if_false]
        linarith
      · rw [if_neg hp]
        have hp' : (! p r) = true := by
          simp only [Bool.not_eq_true']
          exact Bool.of_not_eq_true hp
        rw [if_pos hp', sumH_cons]
        linarith

/-! Lemmas about `insertKey` and `sortDedup`. -/

theorem mem_insertKey {α : Type} [LinearOrder α] (x a : α) (l : List α) :
    a ∈ insertKey x l ↔ a = x ∨ a ∈ l := by
  induction l with
  | nil => simp [insertKey]
  | cons y ys ih =>
      unfold insertKey
      by_cases h1 : x < y
      · simp [if_pos h1]
      · rw [if_neg h1]
        by_cases h2 : x = y
        · subst h2
          simp [if_pos rfl]
        · rw [if_neg h2]
          simp [ih]
          tauto

theorem mem_sortDedup {α : Type} [LinearOrder α] (a : α) (l : List α) :
    a ∈ sortDedup l ↔ a ∈ l := by
  induction l with
  | nil => simp [sortDedup]
  | cons x xs ih =>
      unfold sortDedup
      rw [mem_insertKey]
      simp [ih]

theorem pairwise_insertKey {α : Type} [LinearOrder α] (x : α) (l : List α)
    (h : l.Pairwise (· < ·)) : (insertKey x l).Pairwise (· < ·) := by
  induction l with
  | nil => simp [insertKey]
  | cons y ys ih =>
      rcases List.pairwise_cons.mp h with ⟨hy, hys⟩
      unfold insertKey
      by_cases h1 : x < y
      · rw [if_pos h1]
        refine List.pairwise_cons.mpr ⟨?_, h⟩
        intro a ha
        rcases List.mem_cons.mp ha with rfl | ha
        · exact h1
        · exact lt_trans h1 (hy a ha)
      · rw [if_neg h1]
        by_cases h2 : x = y
        · rw [if_pos h2]; exact h
        · rw [if_neg h2]
          refine List.pairwise_cons.mpr ⟨?_, ih hys⟩
          intro a ha
          rcases (mem_insertKey x a ys).mp ha with rfl | ha
          · exact lt_of_le_of_ne (le_of_not_lt h1) (Ne.symm h2)
          · exact hy a ha

theorem sortDedup_pairwise {α : Type} [LinearOrder α] (l : List α) :
    (sortDedup l).Pairwise (· < ·) := by
  induction l with
  | nil => simp [sortDedup]
  | cons x xs ih => exact pairwise_insertKey x _ ih

theorem sortDedup_nodup {α : Type} [LinearOrder α] (l : List α) :
    (sortDedup l).Nodup :=
  (sortDedup_pairwise l).imp (fun h => ne_of_lt h)

theorem insertKey_of_forall_lt {α : Type} [LinearOrder α] (x : α) (l : List α)
    (h : ∀ y ∈ l, x < y) : insertKey x l = x :: l := by
  cases l with
  | nil => rfl
  | cons y ys => unfold insertKey; rw [if_pos (h y (List.mem_cons_self y ys))]

theorem sortDedup_eq_self {α : Type} [LinearOrder α] (l : List α)
    (h : l.Pairwise (· < ·)) : sortDedup l = l := by
  induction l with
  | nil => rfl
  | cons x xs ih =>
      rcases List.pairwise_cons.mp h with ⟨hx, hxs⟩
      unfold sortDedup
      rw [ih hxs, insertKey_of_forall_lt x xs hx]

theorem sortDedup_eq_nil_iff {α : Type} [LinearOrder α] (l : List α) :
    sortDedup l = [] ↔ l = [] := by
  constructor
  · intro h
    cases l with
    | nil => rfl
    | cons x xs =>
        exfalso
        have : x ∈ sortDedup (x :: xs) := (mem_sortDedup _ _).mpr (List.mem_cons_self x xs)
        rw [h] at this
        exact List.not_mem_nil x this
  · intro h; subst h; rfl

/-! Lemmas about the event loop `runEvents`. -/

theorem runEvents_nil (m c : ℚ) : runEvents m c [] = (none, c) := rfl

theorem runEvents_cons (m c : ℚ) (d : Int) (h : ℚ) (evs : List (Int × ℚ)) :
    runEvents m c ((d, h) :: evs) =
      if c - h < m then (some d, c - h) else runEvents m (c - h) evs := rfl

theorem runEvents_none_snd (m : ℚ) :
    ∀ (evs : List (Int × ℚ)) (c : ℚ), (runEvents m c evs).1 = none →
      (runEvents m c evs).2 = c - (evs.map Prod.snd).sum := by
  intro evs
  induction evs with
  | nil => intro c _; simp [runEvents_nil]
  | cons p evs ih =>
      rcases p with ⟨d, h⟩
      intro c hnone
      rw [runEvents_cons] at hnone ⊢
      by_cases hc : c - h < m
      · rw [if_pos hc] at hnone; exact absurd hnone (by simp)
      · rw [if_neg hc] at hnone ⊢
        rw [ih _ hnone]
        simp [List.sum_cons]
        ring

theorem runEvents_fst_ne_none (m : ℚ) :
    ∀ (evs : List (Int × ℚ)) (c : ℚ), evs ≠ [] →
      c - (evs.map Prod.snd).sum < m → (runEvents m c evs).1 ≠ none := by
  intro evs
  induction evs with
  | nil => intro c hne _; exact absurd rfl hne
  | cons p evs ih =>
      rcases p with ⟨d, h⟩
      intro c _ hlt
      rw [runEvents_cons]
      by_cases hc : c - h < m
      · rw [if_pos hc]; simp
      · rw [if_neg hc]
        cases evs with
        | nil =>
            exfalso
            simp only [List.map_cons, List.map_nil, List.sum_cons, List.sum_nil,
              add_zero] at hlt
            exact hc hlt
        | cons q evs' =>
            apply ih _ (by simp)
            simp only [List.map_cons, List.sum_cons] at hlt ⊢
            linarith

theorem runEvents_none_of_nonneg (m : ℚ) :
    ∀ (evs : List (Int × ℚ)) (c : ℚ), (∀ p ∈ evs, 0 ≤ p.2) →
      (evs.map Prod.snd).sum ≤ c → m ≤ 0 → (runEvents m c evs).1 = none := by
  intro evs
  induction evs with
  | nil => intro c _ _ _; simp [runEvents_nil]
  | cons p evs ih =>
      rcases p with ⟨d, h⟩
      intro c hnn hle hm
      rw [runEvents_cons]
      have hsum : 0 ≤ (evs.map Prod.snd).sum := by
        apply List.sum_nonneg
        intro x hx
        rcases List.mem_map.mp hx with ⟨q, hq, rfl⟩
        exact hnn q (List.mem_cons_of_mem _ hq)
      have hrest : (evs.map Prod.snd).sum ≤ c - h := by
        simp only [List.map_cons, List.sum_cons] at hle
        linarith
      have hc : ¬ c - h < m := by linarith
      rw [if_neg hc]
      exact ih (c - h) (fun q hq => hnn q (List.mem_cons_of_mem _ hq)) hrest hm

theorem runEvents_at_threshold (m : ℚ) :
    ∀ (evs : List (Int × ℚ)), (∀ p ∈ evs, 0 ≤ p.2) →
      (runEvents m m evs).1 = firstPosEvent evs := by
  intro evs
  induction evs with
  | nil => simp [runEvents_nil, firstPosEvent]
  | cons p evs ih =>
      rcases p with ⟨d, h⟩
      intro hnn
      rw [runEvents_cons]
      unfold firstPosEvent
      by_cases hp : 0 < h
      · rw [if_pos hp, if_pos (by linarith : m - h < m)]
      · have h0 : h = 0 := le_antisymm (le_of_not_lt hp) (hnn (d, h) (List.mem_cons_self _ _))
        rw [if_neg hp, h0, sub_zero, if_neg (lt_irrefl m)]
        exact ih (fun q hq => hnn q (List.mem_cons_of_mem _ hq))

theorem runEvents_some_spec (m : ℚ) :
    ∀ (evs : List (Int × ℚ)) (c : ℚ) (e : Int),
      evs.Pairwise (fun a b => a.1 < b.1) → (runEvents m c evs).1 = some e →
      (runEvents m c evs).2 =
          c - ((evs.filter (fun p => decide (p.1 ≤ e))).map Prod.snd).sum ∧
        e ∈ evs.map Prod.fst ∧ (runEvents m c evs).2 < m := by
  intro evs
  induction evs with
  | nil => intro c e _ habs; simp [runEvents_nil] at habs
  | cons p evs ih =>
      rcases p with ⟨d, h⟩
      intro c e hpw hsome
      rcases List.pairwise_cons.mp hpw with ⟨hd, hpw'⟩
      rw [runEvents_cons] at hsome ⊢
      by_cases hc : c - h < m
      · rw [if_pos hc] at hsome ⊢
        have hde : d = e := by simpa using hsome
        subst hde
        have hfil : evs.filter (fun p => decide (p.1 ≤ d)) = [] := by
          apply List.filter_eq_nil_iff.mpr
          intro q hq
          simp only [decide_eq_true_eq]
          exact not_le_of_lt (hd q hq)
        constructor
        · rw [List.filter_cons, hfil]
          simp
        · exact ⟨by simp, hc⟩
      · rw [if_neg hc] at hsome ⊢
        rcases ih (c - h) e hpw' hsome with ⟨hsnd, hmem, hlt⟩
        have hde : d < e := by
          rcases List.mem_map.mp hmem with ⟨q, hq, rfl⟩
          exact hd q hq
        constructor
        · rw [List.filter_cons]
          rw [if_pos (by simp [le_of_lt hde])]
          simp only [List.map_cons, List.sum_cons]
          rw [hsnd]
          ring
        · exact ⟨List.mem_cons_of_mem _ hmem, hlt⟩

/-! Fiber sums: summing a dict built with `setdefault` / `+=` over its sorted
keys recovers the sum over the underlying rows. -/

theorem sum_map_ite_key (c : Int) (v : ℚ) :
    ∀ (ds : List Int), ds.Nodup → c ∈ ds →
      (ds.map (fun d => if c = d then v else 0)).sum = v := by
  intro ds
  induction ds with
  | nil => intro _ habs; simp at habs
  | cons d0 ds ih =>
      intro hnd hc
      rcases List.nodup_cons.mp hnd with ⟨hd0, hnd'⟩
      rw [List.map_cons, List.sum_cons]
      by_cases h0 : c = d0
      · subst h0
        rw [if_pos rfl]
        have : (ds.map (fun d => if c = d then v else 0)).sum = 0 := by
          apply List.sum_eq_zero
          intro x hx
          rcases List.mem_map.mp hx with ⟨d, hd, rfl⟩
          rw [if_neg]
          intro hcd
          exact hd0 (hcd ▸ hd)
        rw [this, add_zero]
      · rw [if_neg h0, zero_add]
        exact ih hnd' (List.mem_of_ne_of_mem h0 hc)

theorem sum_fiber (k : FlightRecord → Int) (f : FlightRecord → ℚ)
    (ds : List Int) :
    ∀ (l : List FlightRecord), ds.Nodup → (∀ r ∈ l, k r ∈ ds) →
      (ds.map (fun d => ((l.filter (fun r => decide (k r = d))).map f).sum)).sum
        = (l.map f).sum := by
  intro l
  induction l with
  | nil =>
      intro _ _
      simp
  | cons r l ih =>
      intro hnd hcov
      have hstep : ∀ d : Int,
          (((r :: l).filter (fun x => decide (k x = d))).map f).sum
            = (if k r = d then f r else 0)
              + ((l.filter (fun x => decide (k x = d))).map f).sum := by
        intro d
        rw [List.filter_cons]
        by_cases hkd : k r = d
        · simp [hkd]
        · simp [hkd]
      simp only [hstep]
      rw [List.sum_map_add]
      rw [sum_map_ite_key (k r) (f r) ds hnd (hcov r (List.mem_cons_self r l))]
      rw [ih hnd (fun x hx => hcov x (List.mem_cons_of_mem r hx))]
      simp

/-! Structure of the event list `pilotEvents`. -/

theorem pilotEvents_fst (sel : List FlightRecord) (w : Nat) :
    (pilotEvents sel w).map Prod.fst = sortDedup (sel.map (exitDate w)) := by
  unfold pilotEvents
  rw [List.map_map]
  exact List.map_id'' (fun x => rfl) _

theorem pilotEvents_date_pairwise (sel : List FlightRecord) (w : Nat) :
    (pilotEvents sel w).Pairwise (fun a b => a.1 < b.1) := by
  unfold pilotEvents
  exact List.Pairwise.map _ (fun a b hab => hab) (sortDedup_pairwise _)

theorem pilotEvents_snd_nonneg (sel : List FlightRecord) (w : Nat) :
    ∀ p ∈ pilotEvents sel w, 0 ≤ p.2 := by
  intro p hp
  unfold pilotEvents at hp
  rcases List.mem_map.mp hp with ⟨d, _, rfl⟩
  unfold eventHoursAt
  apply List.sum_nonneg
  intro x hx
  rcases List.mem_map.mp hx with ⟨r, _, rfl⟩
  exact hoursOf_nonneg r

theorem pilotEvents_snd_sum (sel : List FlightRecord) (w : Nat) :
    ((pilotEvents sel w).map Prod.snd).sum = sumH sel := by
  unfold pilotEvents eventHoursAt sumH
  rw [List.map_map]
  exact sum_fiber (exitDate w) hoursOf _ sel (sortDedup_nodup _)
    (fun r hr => (mem_sortDedup _ _).mpr (List.mem_map_of_mem (exitDate w) hr))

theorem pilotEvents_eq_nil_iff (sel : List FlightRecord) (w : Nat) :
    pilotEvents sel w = [] ↔ sel = [] := by
  unfold pilotEvents
  rw [List.map_eq_nil_iff, sortDedup_eq_nil_iff, List.map_eq_nil_iff]

/-! Branch lemmas for `complianceRow` and the window filter. -/

theorem inWindow_iff (today : Int) (w : Nat) (d : Int) :
    inWindow today w d = true ↔ (today - (w : Int) < d ∧ d ≤ today) := by
  unfold inWindow
  simp

theorem complianceRow_window_total (recs : List FlightRecord) (today : Int)
    (w : Nat) (minH : ℚ) :
    (complianceRow recs today w minH).window_total = windowTotal recs today w := by
  unfold complianceRow
  by_cases h : windowTotal recs today w < minH
  · rw [if_pos h]
  · rw [if_neg h]

theorem complianceRow_noncompliant (recs : List FlightRecord) (today : Int)
    (w : Nat) (minH : ℚ) (h : windowTotal recs today w < minH) :
    complianceRow recs today w minH =
      { window_total := windowTotal recs today w, expire := some today,
        missing := windowTotal recs today w - minH } := by
  unfold complianceRow
  rw [if_pos h]

theorem complianceRow_compliant (recs : List FlightRecord) (today : Int)
    (w : Nat) (minH : ℚ) (h : ¬ windowTotal recs today w < minH) :
    complianceRow recs today w minH =
      { window_total := windowTotal recs today w,
        expire := (runEvents minH (windowTotal recs today w)
          (pilotEvents (windowRecords recs today w) w)).1,
        missing := (runEvents minH (windowTotal recs today w)
          (pilotEvents (windowRecords recs today w) w)).2 - minH } := by
  unfold complianceRow
  rw [if_neg h]

theorem windowRecords_date_gt (recs : List FlightRecord) (today : Int) (w : Nat) :
    ∀ r ∈ windowRecords recs today w, today - (w : Int) < r.flight_date ∧ r.flight_date ≤ today := by
  intro r hr
  have := (List.mem_filter.mp hr).2
  exact (inWindow_iff today w r.flight_date).mp this

theorem exit_gt_today (recs : List FlightRecord) (today : Int) (w : Nat) :
    ∀ r ∈ windowRecords recs today w, today < exitDate w r := by
  intro r hr
  have h := (windowRecords_date_gt recs today w r hr).1
  unfold exitDate
  omega

theorem windowTotal_cons_in (x : FlightRecord) (recs : List FlightRecord)
    (today : Int) (w : Nat) (h : inWindow today w x.flight_date = true) :
    windowTotal (x :: recs) today w = hoursOf x + windowTotal recs today w := by
  rw [windowTotal_eq_sumH, windowTotal_eq_sumH]
  unfold windowRecords
  rw [List.filter_cons, if_pos h, sumH_cons]

theorem windowTotal_cons_out (x : FlightRecord) (recs : List FlightRecord)
    (today : Int) (w : Nat) (h : inWindow today w x.flight_date = false) :
    windowTotal (x :: recs) today w = windowTotal recs today w := by
  rw [windowTotal_eq_sumH, windowTotal_eq_sumH]
  unfold windowRecords
  rw [List.filter_cons, h]
  simp

/-- C1 counterexample: on the §8 scenario (pilot compliant at the reference
date), the reported `VFR at Expiration` is NOT `window_total_hours −
minimum_hours` (which would be `18 − 15 = 3`); the code reports `−7`, the
running total after the expiration event minus the minimum. -/
theorem C1_counterexample :
    (complianceRow demoRecs 60 60 15).missing ≠
      (complianceRow demoRecs 60 60 15).window_total - 15 := by
  norm_num [complianceRow, windowTotal, windowRecords, inWindow, demoRecs,
    pilotEvents, sortDedup, insertKey, exitDate, eventHoursAt, hoursOf, runEvents]

/-- C2 counterexample: on the concrete scenario (flights of 10h on day 14 =
2024-01-15 and 8h on day 50 = 2024-02-20, window 60 days, minimum 15h,
reference date day 60 = 2024-03-01) the claim asserts `hours_at_expiration =
3`; the code reports `−7`. -/
theorem C2_counterexample : (complianceRow demoRecs 60 60 15).missing ≠ 3 := by
  norm_num [complianceRow, windowTotal, windowRecords, inWindow, demoRecs,
    pilotEvents, sortDedup, insertKey, exitDate, eventHoursAt, hoursOf, runEvents]

/-- C2 amended: on the concrete scenario the engine returns
`window_total_hours = 18` and `expiration_date = 2024-03-15` (day 74) as
claimed, but `hours_at_expiration = −7` (the running total `18 − 10 = 8`
after the first expiration event, minus the minimum 15), not `3`. -/
theorem C2_result : complianceRow demoRecs 60 60 15 =
    { window_total := 18, expire := some 74, missing := -7 } := by
  norm_num [complianceRow, windowTotal, windowRecords, inWindow, demoRecs,
    pilotEvents, sortDedup, insertKey, exitDate, eventHoursAt, hoursOf, runEvents]

/-- C3: a record dated exactly `window_days` before the reference date is
excluded from `window_total_hours`, a record dated `window_days − 1` before is
included, and the selection predicate is exactly
`reference_date − window_days < flight_date ≤ reference_date`. -/
theorem C3_window_boundary (recs : List FlightRecord) (today : Int) (w : Nat)
    (hw : 1 ≤ w) (r s : FlightRecord)
    (hr : r.flight_date = today - (w : Int))
    (hs : s.flight_date = today - ((w : Int) - 1)) :
    inWindow today w r.flight_date = false ∧
    inWindow today w s.flight_date = true ∧
    windowTotal (r :: recs) today w = windowTotal recs today w ∧
    windowTotal (s :: recs) today w = hoursOf s + windowTotal recs today w ∧
    ∀ d : Int, inWindow today w d = true ↔ (today - (w : Int) < d ∧ d ≤ today) := by
  have hrf : inWindow today w r.flight_date = false := by
    rw [hr]
    unfold inWindow
    simp
  have hst : inWindow today w s.flight_date = true := by
    rw [hs]
    unfold inWindow
    simp
    omega
  exact ⟨hrf, hst, windowTotal_cons_out r recs today w hrf,
    windowTotal_cons_in s recs today w hst, inWindow_iff today w⟩

/-- C3 witness at `w = 60`, `today = 60`: day 0 is excluded, day 1 included. -/
theorem C3_window_boundary_witness :
    inWindow 60 60 ((0 : Int)) = false ∧ inWindow 60 60 ((1 : Int)) = true := by
  have h := C3_window_boundary [] 60 60 (by norm_num)
    { pilot_id := "P", flight_date := 0, vfr_minutes := 60 }
    { pilot_id := "P", flight_date := 1, vfr_minutes := 60 }
    (by norm_num) (by norm_num)
  exact ⟨h.1, h.2.1⟩

/-- C5: a pilot whose window total is strictly below the minimum gets
`expiration_date = reference_date` exactly and `hours_at_expiration =
window_total_hours − minimum_hours`, a negative value; the reported row is
exactly the non-compliant branch's, so no aging simulation contributes. -/
theorem C5_already_expired (recs : List FlightRecord) (today : Int) (w : Nat)
    (minH : ℚ) (h : windowTotal recs today w < minH) :
    (complianceRow recs today w minH).expire = some today ∧
    (complianceRow recs today w minH).missing =
      windowTotal recs today w - minH ∧
    (complianceRow recs today w minH).missing < 0 := by
  rw [complianceRow_noncompliant recs today w minH h]
  refine ⟨rfl, rfl, ?_⟩
  simp only
  linarith

/-- C5 witness: the demo pilot with minimum 20h (window total 18 < 20). -/
theorem C5_already_expired_witness :
    (complianceRow demoRecs 60 60 20).expire = some 60 ∧
    (complianceRow demoRecs 60 60 20).missing = windowTotal demoRecs 60 60 - 20 ∧
    (complianceRow demoRecs 60 60 20).missing < 0 :=
  C5_already_expired demoRecs 60 60 20
    (by norm_num [windowTotal, windowRecords, inWindow, demoRecs])

/-! Event dates of in-window records lie strictly after the reference date. -/

theorem firstPosEvent_mem (e : Int) :
    ∀ evs : List (Int × ℚ), firstPosEvent evs = some e → e ∈ evs.map Prod.fst := by
  intro evs
  induction evs with
  | nil => intro habs; simp [firstPosEvent] at habs
  | cons p evs ih =>
      rcases p with ⟨d, h⟩
      intro hfp
      unfold firstPosEvent at hfp
      by_cases hp : 0 < h
      · rw [if_pos hp] at hfp
        simp only [Option.some_inj] at hfp
        subst hfp
        simp
      · rw [if_neg hp] at hfp
        exact List.mem_cons_of_mem _ (ih hfp)

theorem pilotEvents_date_gt_today (recs : List FlightRecord) (today : Int)
    (w : Nat) :
    ∀ d ∈ (pilotEvents (windowRecords recs today w) w).map Prod.fst,
      today < d := by
  intro d hd
  rw [pilotEvents_fst, mem_sortDedup] at hd
  rcases List.mem_map.mp hd with ⟨r, hr, rfl⟩
  exact exit_gt_today recs today w r hr

/-- C6: with `window_total_hours` exactly equal to `minimum_hours`, the
strict non-compliance test is false: the pilot is treated as compliant
(`expiration_date ≠ reference_date`) and the aging simulation runs, its
result being the date of the first expiration event carrying strictly
positive hours (or "Never" if all events carry zero hours). -/
theorem C6_exact_threshold (recs : List FlightRecord) (today : Int) (w : Nat)
    (minH : ℚ) (h : windowTotal recs today w = minH) :
    (complianceRow recs today w minH).expire ≠ some today ∧
    (complianceRow recs today w minH).expire =
      firstPosEvent (pilotEvents (windowRecords recs today w) w) := by
  have hnc : ¬ windowTotal recs today w < minH := by rw [h]; exact lt_irrefl minH
  rw [complianceRow_compliant recs today w minH hnc]
  simp only
  have hev := runEvents_at_threshold minH
    (pilotEvents (windowRecords recs today w) w)
    (pilotEvents_snd_nonneg _ _)
  rw [h]
  refine ⟨?_, hev⟩
  rw [hev]
  cases heq : firstPosEvent (pilotEvents (windowRecords recs today w) w) with
  | none => simp
  | some e =>
      have hmem := firstPosEvent_mem e _ heq
      have := pilotEvents_date_gt_today recs today w e hmem
      intro hcon
      simp only [Option.some_inj] at hcon
      rw [hcon] at this
      exact lt_irrefl today this

/-- C6 witness: the demo pilot with minimum 18h (window total exactly 18). -/
theorem C6_exact_threshold_witness :
    (complianceRow demoRecs 60 60 18).expire ≠ some 60 ∧
    (complianceRow demoRecs 60 60 18).expire =
      firstPosEvent (pilotEvents (windowRecords demoRecs 60 60) 60) :=
  C6_exact_threshold demoRecs 60 60 18
    (by norm_num [windowTotal, windowRecords, inWindow, demoRecs])

/-- C10: the sentinel `"Never"` is reported exactly when `minimum_hours = 0`:
every in-window record produces an expiration event, the events' hours sum to
the window total, so the running total ends at zero, strictly below any
positive minimum, while with zero minimum it never goes strictly below. -/
theorem C10_never_iff (recs : List FlightRecord) (today : Int) (w : Nat)
    (minH : ℚ) (hm : 0 ≤ minH) :
    ((complianceRow recs today w minH).expire = none ↔ minH = 0) := by
  constructor
  · intro hnone
    by_contra hne
    have hpos : 0 < minH := lt_of_le_of_ne hm (Ne.symm hne)
    by_cases hc : windowTotal recs today w < minH
    · rw [complianceRow_noncompliant _ _ _ _ hc] at hnone
      simp at hnone
    · rw [complianceRow_compliant _ _ _ _ hc] at hnone
      simp only at hnone
      have hsum : ((pilotEvents (windowRecords recs today w) w).map Prod.snd).sum
          = sumH (windowRecords recs today w) := pilotEvents_snd_sum _ w
      have hwt : windowTotal recs today w = sumH (windowRecords recs today w) :=
        windowTotal_eq_sumH recs today w
      have hselne : windowRecords recs today w ≠ [] := by
        intro hnil
        rw [hwt, hnil, sumH_nil] at hc
        exact hc hpos
      have hevne : pilotEvents (windowRecords recs today w) w ≠ [] := by
        intro hnil
        exact hselne ((pilotEvents_eq_nil_iff _ w).mp hnil)
      have hdrop : windowTotal recs today w
          - ((pilotEvents (windowRecords recs today w) w).map Prod.snd).sum < minH := by
        rw [hsum, hwt]
        simpa using hpos
      exact runEvents_fst_ne_none minH _ _ hevne hdrop hnone
  · intro h0
    subst h0
    have hc : ¬ windowTotal recs today w < 0 := by
      rw [windowTotal_eq_sumH]
      exact not_lt_of_le (sumH_nonneg _)
    rw [complianceRow_compliant _ _ _ _ hc]
    simp only
    apply runEvents_none_of_nonneg 0 _ _ (pilotEvents_snd_nonneg _ _) _ le_rfl
    rw [pilotEvents_snd_sum, windowTotal_eq_sumH]

/-- C10 witness: the demo pilot with positive minimum 15 does not report
"Never". -/
theorem C10_never_iff_witness :
    ((complianceRow demoRecs 60 60 15).expire = none ↔ (15 : ℚ) = 0) :=
  C10_never_iff demoRecs 60 60 15 (by norm_num)

/-- C4: two flights on the same date (hence sharing the window-exit date
`flight_date + window_days`), each of whose individual removal would leave
the total at or above the minimum but whose combined removal drops below it,
are merged into a single expiration event with summed hours, and the engine
reports the shared exit date as the expiration date. -/
theorem C4_same_day_merge (today : Int) (w : Nat) (minH : ℚ)
    (r1 r2 : FlightRecord)
    (hsame : r2.flight_date = r1.flight_date)
    (hwin : inWindow today w r1.flight_date = true)
    (hind1 : ¬ (hoursOf r1 + hoursOf r2) - hoursOf r1 < minH)
    (hind2 : ¬ (hoursOf r1 + hoursOf r2) - hoursOf r2 < minH)
    (hcomb : (hoursOf r1 + hoursOf r2) - (hoursOf r1 + hoursOf r2) < minH) :
    pilotEvents (windowRecords [r1, r2] today w) w =
      [(exitDate w r1, hoursOf r1 + hoursOf r2)] ∧
    (complianceRow [r1, r2] today w minH).expire = some (exitDate w r1) := by
  push_neg at hind1 hind2
  have hwin2 : inWindow today w r2.flight_date = true := by rw [hsame]; exact hwin
  have hsel : windowRecords [r1, r2] today w = [r1, r2] := by
    unfold windowRecords
    rw [List.filter_cons, List.filter_cons, List.filter_nil, if_pos hwin, if_pos hwin2]
  have hexit : exitDate w r2 = exitDate w r1 := by unfold exitDate; rw [hsame]
  have hev : pilotEvents [r1, r2] w = [(exitDate w r1, hoursOf r1 + hoursOf r2)] := by
    unfold pilotEvents
    rw [List.map_cons, List.map_cons, List.map_nil, hexit]
    have hdedup : sortDedup [exitDate w r1, exitDate w r1] = [exitDate w r1] := by
      simp [sortDedup, insertKey]
    rw [hdedup, List.map_cons, List.map_nil]
    have hhours : eventHoursAt [r1, r2] w (exitDate w r1) = hoursOf r1 + hoursOf r2 := by
      unfold eventHoursAt
      rw [List.filter_cons, List.filter_cons, List.filter_nil]
      rw [if_pos (by simp), if_pos (by simp [hexit])]
      simp
    rw [hhours]
  have hwt : windowTotal [r1, r2] today w = hoursOf r1 + hoursOf r2 := by
    rw [windowTotal_eq_sumH, hsel, sumH_cons, sumH_cons, sumH_nil, add_zero]
  have hnc : ¬ windowTotal [r1, r2] today w < minH := by
    rw [hwt]
    have := hoursOf_nonneg r2
    intro hcon
    linarith
  refine ⟨by rw [hsel, hev], ?_⟩
  rw [complianceRow_compliant _ _ _ _ hnc]
  simp only
  rw [hsel, hev, hwt, runEvents_cons]
  rw [if_pos (by linarith)]

/-- C4 witness: two identical 10-hour flights on day 30, window 60 ending at
day 60, minimum 8: one merged event at day 90 and expiration on day 90. -/
theorem C4_same_day_merge_witness :
    pilotEvents (windowRecords [{ pilot_id := "P", flight_date := 30, vfr_minutes := 600 },
      { pilot_id := "P", flight_date := 30, vfr_minutes := 600 }] 60 60) 60 =
      [(exitDate 60 { pilot_id := "P", flight_date := 30, vfr_minutes := 600 },
        hoursOf { pilot_id := "P", flight_date := 30, vfr_minutes := 600 }
          + hoursOf { pilot_id := "P", flight_date := 30, vfr_minutes := 600 })] ∧
    (complianceRow [{ pilot_id := "P", flight_date := 30, vfr_minutes := 600 },
      { pilot_id := "P", flight_date := 30, vfr_minutes := 600 }] 60 60 8).expire =
      some (exitDate 60 { pilot_id := "P", flight_date := 30, vfr_minutes := 600 }) :=
  C4_same_day_merge 60 60 8 _ _ rfl (by decide)
    (by norm_num [hoursOf]) (by norm_num [hoursOf]) (by norm_num [hoursOf])

/-! Permutation facts for the descending sort of the term table, and
membership characterisations of the two output mappings. -/

theorem insertDesc_perm (x : TermRow) (l : List TermRow) :
    (insertDesc x l).Perm (x :: l) := by
  induction l with
  | nil => exact List.Perm.refl _
  | cons y ys ih =>
      unfold insertDesc
      by_cases h : y.hours_dec ≤ x.hours_dec
      · rw [if_pos h]
      · rw [if_neg h]
        exact (ih.cons y).trans (List.Perm.swap x y ys)

theorem sortDesc_perm (l : List TermRow) : (sortDesc l).Perm l := by
  induction l with
  | nil => exact List.Perm.refl _
  | cons x xs ih => exact (insertDesc_perm x (sortDesc xs)).trans (ih.cons x)

theorem mem_pilotsOf (l : List FlightRecord) (p : String) :
    p ∈ pilotsOf l ↔ ∃ r ∈ l, r.pilot_id = p := by
  unfold pilotsOf
  rw [mem_sortDedup]
  exact List.mem_map

theorem mem_termRecords (recs : List FlightRecord) (s e : Int)
    (r : FlightRecord) :
    r ∈ termRecords recs s e ↔
      r ∈ recs ∧ s ≤ r.flight_date ∧ r.flight_date ≤ e := by
  unfold termRecords
  rw [List.mem_filter]
  simp

theorem complianceTable_crews (recs : List FlightRecord) (s e : Int) (w : Nat)
    (minH : ℚ) :
    (complianceTable recs s e w minH).map (fun r => r.crew)
      = pilotsOf (termRecords recs s e) := by
  unfold complianceTable
  rw [List.map_map]
  exact List.map_id'' (fun x => rfl) _

theorem termTable_pilots_perm (recs : List FlightRecord) (s e : Int) :
    ((termTable recs s e).map (fun r => r.pilot_id)).Perm
      (pilotsOf (termRecords recs s e)) := by
  unfold termTable
  have h := (sortDesc_perm ((pilotsOf (termRecords recs s e)).map (fun p =>
    ({ pilot_id := p, term_vfr := fmtHM (termMinutes (termRecords recs s e) p),
       hours_dec := decHours (termMinutes (termRecords recs s e) p) } : TermRow)))).map
    (fun r => r.pilot_id)
  rw [List.map_map] at h
  have h2 : ((pilotsOf (termRecords recs s e)).map
      ((fun r : TermRow => r.pilot_id) ∘ (fun p =>
        ({ pilot_id := p, term_vfr := fmtHM (termMinutes (termRecords recs s e) p),
           hours_dec := decHours (termMinutes (termRecords recs s e) p) } : TermRow))))
      = pilotsOf (termRecords recs s e) := List.map_id'' (fun x => rfl) _
  rw [h2] at h
  exact h

theorem mem_pilots_term (recs : List FlightRecord) (s e : Int) (p : String) :
    p ∈ pilotsOf (termRecords recs s e) ↔
      ∃ r ∈ recs, r.pilot_id = p ∧ s ≤ r.flight_date ∧ r.flight_date ≤ e := by
  rw [mem_pilotsOf]
  constructor
  · rintro ⟨r, hr, rfl⟩
    rcases (mem_termRecords recs s e r).mp hr with ⟨h1, h2, h3⟩
    exact ⟨r, h1, rfl, h2, h3⟩
  · rintro ⟨r, h1, hp, h2, h3⟩
    exact ⟨r, (mem_termRecords recs s e r).mpr ⟨h1, h2, h3⟩, hp⟩

/-- C9 counterexample: pilot Q has a term record (day 5 inside `[0, 100]`)
but no record in the trailing 10-day window ending at the reference date 100;
the claim says Q is omitted from the compliance mapping, yet the compliance
table contains a row for Q (with expiration = the reference date). -/
theorem C9_counterexample :
    windowRecords (termRecords soloRecs 0 100) 100 10 = [] ∧
    (complianceTable soloRecs 0 100 10 1).map (fun r => r.crew) = ["Q"] ∧
    (complianceTable soloRecs 0 100 10 1).map (fun r => r.row.expire)
      = [some 100] := by
  refine ⟨by decide, ?_, ?_⟩
  · norm_num [complianceTable, termRecords, pilotsOf, sortDedup, insertKey, soloRecs]
  · norm_num [complianceTable, termRecords, pilotsOf, sortDedup, insertKey, soloRecs,
      complianceRow, windowTotal, windowRecords, inWindow]

/-- C9 amended: only the Term Aggregator omits pilots with no qualifying
records in its scope; the compliance mapping does not filter by the window —
both mappings contain exactly the pilots having at least one record in the
inclusive term range, so a pilot with term records but none in the trailing
window still receives a compliance row. -/
theorem C9_mapping_keys (recs : List FlightRecord) (s e : Int) (w : Nat)
    (minH : ℚ) (p : String) :
    (p ∈ (complianceTable recs s e w minH).map (fun r => r.crew) ↔
      ∃ r ∈ recs, r.pilot_id = p ∧ s ≤ r.flight_date ∧ r.flight_date ≤ e) ∧
    (p ∈ (termTable recs s e).map (fun r => r.pilot_id) ↔
      ∃ r ∈ recs, r.pilot_id = p ∧ s ≤ r.flight_date ∧ r.flight_date ≤ e) := by
  constructor
  · rw [complianceTable_crews]
    exact mem_pilots_term recs s e p
  · rw [(termTable_pilots_perm recs s e).mem_iff]
    exact mem_pilots_term recs s e p

/-- C9 witness: pilot Q (term record on day 5, nothing in the 10-day window)
is a key of the compliance mapping. -/
theorem C9_mapping_keys_witness :
    "Q" ∈ (complianceTable soloRecs 0 100 10 1).map (fun r => r.crew) :=
  ((C9_mapping_keys soloRecs 0 100 10 1 "Q").1).mpr
    ⟨{ pilot_id := "Q", flight_date := 5, vfr_minutes := 60 },
      by norm_num [soloRecs], rfl, by norm_num, by norm_num⟩

/-! Relating the processed prefix of the event list to the records it came
from. -/

theorem filter_exit_restrict (sel : List FlightRecord) (w : Nat) (e d : Int)
    (hde : d ≤ e) :
    sel.filter (fun r => decide (exitDate w r = d))
      = (sel.filter (fun r => decide (exitDate w r ≤ e))).filter
          (fun r => decide (exitDate w r = d)) := by
  rw [List.filter_filter]
  apply List.filter_congr
  intro r _
  by_cases hx : exitDate w r = d
  · simp [hx, hde]
  · simp [hx]

theorem pilotEvents_filter_sum (sel : List FlightRecord) (w : Nat) (e : Int) :
    (((pilotEvents sel w).filter (fun p => decide (p.1 ≤ e))).map Prod.snd).sum
      = sumH (sel.filter (fun r => decide (exitDate w r ≤ e))) := by
  unfold pilotEvents
  rw [List.filter_map]
  rw [List.map_map]
  have hcomp : ((fun p : Int × ℚ => decide (p.1 ≤ e)) ∘
      (fun d => (d, eventHoursAt sel w d))) = fun d : Int => decide (d ≤ e) := rfl
  rw [hcomp]
  have hcongr : ((sortDedup (sel.map (exitDate w))).filter
        (fun d : Int => decide (d ≤ e))).map
        (Prod.snd ∘ fun d => (d, eventHoursAt sel w d))
      = ((sortDedup (sel.map (exitDate w))).filter
        (fun d : Int => decide (d ≤ e))).map
        (fun d => (((sel.filter (fun r => decide (exitDate w r ≤ e))).filter
          (fun r => decide (exitDate w r = d))).map hoursOf).sum) := by
    apply List.map_eq_map_iff.mpr
    intro d hd
    have hde : d ≤ e := by
      have := (List.mem_filter.mp hd).2
      simpa using this
    show eventHoursAt sel w d = _
    unfold eventHoursAt
    rw [filter_exit_restrict sel w e d hde]
  rw [hcongr]
  unfold sumH
  apply sum_fiber (exitDate w) hoursOf
  · exact ((sortDedup_nodup _).filter _)
  · intro r hr
    rcases List.mem_filter.mp hr with ⟨hrs, hre⟩
    apply List.mem_filter.mpr
    refine ⟨(mem_sortDedup _ _).mpr (List.mem_map_of_mem (exitDate w) hrs), hre⟩

theorem sumH_exit_split (sel : List FlightRecord) (w : Nat) (e : Int) :
    sumH sel = sumH (sel.filter (fun r => decide (exitDate w r ≤ e)))
      + sumH (sel.filter (fun r => decide (e < exitDate w r))) := by
  have h := sumH_filter_split sel (fun r => decide (exitDate w r ≤ e))
  have hneg : sel.filter (fun r => ! decide (exitDate w r ≤ e))
      = sel.filter (fun r => decide (e < exitDate w r)) := by
    apply List.filter_congr
    intro r _
    rw [← decide_not, decide_eq_decide]
    exact not_le
  rw [hneg] at h
  exact h

/-- C1 amended: `hours_at_expiration` equals `window_total_hours −
minimum_hours` only in the already-non-compliant branch; for a pilot
compliant at the reference date it is the running total at the end of the
simulation minus the minimum: the still-standing window hours after the
expiration date (equivalently, `−minimum_hours` when the result is "Never"),
not the reference-date surplus. -/
theorem C1_hours_at_expiration (recs : List FlightRecord) (today : Int)
    (w : Nat) (minH : ℚ) :
    (windowTotal recs today w < minH →
      (complianceRow recs today w minH).missing
        = windowTotal recs today w - minH) ∧
    (¬ windowTotal recs today w < minH →
      ((complianceRow recs today w minH).expire = none →
        (complianceRow recs today w minH).missing = -minH) ∧
      (∀ e : Int, (complianceRow recs today w minH).expire = some e →
        (complianceRow recs today w minH).missing
          = remainingAfter recs today w e - minH)) := by
  constructor
  · intro h
    rw [complianceRow_noncompliant _ _ _ _ h]
  · intro hc
    rw [complianceRow_compliant _ _ _ _ hc]
    simp only
    constructor
    · intro hnone
      rw [runEvents_none_snd _ _ _ hnone, pilotEvents_snd_sum,
        windowTotal_eq_sumH]
      ring
    · intro e hsome
      rcases runEvents_some_spec minH _ _ e (pilotEvents_date_pairwise _ w)
        hsome with ⟨hsnd, _, _⟩
      rw [hsnd, pilotEvents_filter_sum, windowTotal_eq_sumH]
      unfold remainingAfter
      have hsplit := sumH_exit_split (windowRecords recs today w) w e
      linarith

/-- C1 witness: the compliant demo pilot expires on day 74 and the reported
value is the post-expiration remainder 8 minus the minimum 15, i.e. −7. -/
theorem C1_hours_at_expiration_witness :
    (complianceRow demoRecs 60 60 15).missing
      = remainingAfter demoRecs 60 60 74 - 15 :=
  ((C1_hours_at_expiration demoRecs 60 60 15).2
      (by norm_num [windowTotal, windowRecords, inWindow, demoRecs])).2 74
    (by norm_num [complianceRow, windowTotal, windowRecords, inWindow, demoRecs,
      pilotEvents, sortDedup, insertKey, exitDate, eventHoursAt, hoursOf, runEvents])

/-! Sortedness of the descending term table. -/

theorem insertDesc_sorted (x : TermRow) (l : List TermRow)
    (h : l.Pairwise (fun a b => b.hours_dec ≤ a.hours_dec)) :
    (insertDesc x l).Pairwise (fun a b => b.hours_dec ≤ a.hours_dec) := by
  induction l with
  | nil => simp [insertDesc]
  | cons y ys ih =>
      rcases List.pairwise_cons.mp h with ⟨hy, hys⟩
      unfold insertDesc
      by_cases hc : y.hours_dec ≤ x.hours_dec
      · rw [if_pos hc]
        refine List.pairwise_cons.mpr ⟨?_, h⟩
        intro a ha
        rcases List.mem_cons.mp ha with rfl | ha
        · exact hc
        · exact le_trans (hy a ha) hc
      · rw [if_neg hc]
        refine List.pairwise_cons.mpr ⟨?_, ih hys⟩
        intro a ha
        rcases List.mem_cons.mp ((insertDesc_perm x ys).mem_iff.mp ha) with rfl | ha'
        · exact le_of_not_le hc
        · exact hy a ha'

theorem sortDesc_sorted (l : List TermRow) :
    (sortDesc l).Pairwise (fun a b => b.hours_dec ≤ a.hours_dec) := by
  induction l with
  | nil => simp [sortDesc]
  | cons x xs ih => exact insertDesc_sorted x _ ih

/-- C8: the Term Aggregator emits one row per distinct pilot having a record
in the inclusive range `[s, e]` (pilots with none are omitted), each row
carrying the pilot's summed in-range minutes as an `H:MM` string with
zero-padded minutes and as (rounded) decimal hours, sorted by descending
decimal hours. -/
theorem C8_term_aggregator (recs : List FlightRecord) (s e : Int) :
    ((termTable recs s e).map (fun r => r.pilot_id)).Nodup ∧
    (∀ p : String, p ∈ (termTable recs s e).map (fun r => r.pilot_id) ↔
      ∃ r ∈ recs, r.pilot_id = p ∧ s ≤ r.flight_date ∧ r.flight_date ≤ e) ∧
    (∀ row ∈ termTable recs s e,
      row.term_vfr = fmtHM (termMinutes (termRecords recs s e) row.pilot_id) ∧
      row.hours_dec = decHours (termMinutes (termRecords recs s e) row.pilot_id)) ∧
    (∀ p : String, termMinutes (termRecords recs s e) p =
      ((recs.filter (fun r => decide (r.pilot_id = p) &&
        (decide (s ≤ r.flight_date) && decide (r.flight_date ≤ e)))).map
        (fun r => r.vfr_minutes)).sum) ∧
    (termTable recs s e).Pairwise (fun a b => b.hours_dec ≤ a.hours_dec) := by
  refine ⟨?_, ?_, ?_, ?_, ?_⟩
  · exact ((termTable_pilots_perm recs s e).symm.nodup (sortDedup_nodup _))
  · intro p
    rw [(termTable_pilots_perm recs s e).mem_iff]
    exact mem_pilots_term recs s e p
  · intro row hrow
    unfold termTable at hrow
    have h2 := (sortDesc_perm _).mem_iff.mp hrow
    rcases List.mem_map.mp h2 with ⟨p, _, rfl⟩
    exact ⟨rfl, rfl⟩
  · intro p
    unfold termMinutes termRecords
    rw [List.filter_filter]
  · unfold termTable
    exact sortDesc_sorted _

/-- C8 witness: on the demo records over the term `[0, 100]` the pilot
column of the term table is duplicate-free. -/
theorem C8_term_aggregator_witness :
    ((termTable demoRecs 0 100).map (fun r => r.pilot_id)).Nodup :=
  (C8_term_aggregator demoRecs 0 100).1

/-! Machinery for the aging-monotonicity claim: for strictly increasing
flight dates the event list is the record list itself, the event loop is a
scan of the records, and the scan is independent of the window length. -/

theorem filter_key_eq_singleton (k : FlightRecord → Int) :
    ∀ (l : List FlightRecord) (r : FlightRecord), (l.map k).Nodup → r ∈ l →
      l.filter (fun x => decide (k x = k r)) = [r] := by
  intro l
  induction l with
  | nil => intro r _ habs; exact absurd habs (List.not_mem_nil r)
  | cons y ys ih =>
      intro r hnd hr
      rw [List.map_cons, List.nodup_cons] at hnd
      rcases hnd with ⟨hy, hys⟩
      rw [List.filter_cons]
      by_cases hk : k y = k r
      · have hry : r = y := by
          rcases List.mem_cons.mp hr with rfl | hr'
          · rfl
          · exact absurd (hk ▸ List.mem_map_of_mem k hr') hy
        subst hry
        rw [if_pos (by simp [hk])]
        have hnil : ys.filter (fun x => decide (k x = k r)) = [] := by
          apply List.filter_eq_nil_iff.mpr
          intro x hx
          simp only [decide_eq_true_eq]
          intro hxr
          exact hy (hxr ▸ List.mem_map_of_mem k hx)
        rw [hnil]
      · have hr' : r ∈ ys := by
          rcases List.mem_cons.mp hr with rfl | h
          · exact absurd rfl hk
          · exact h
        rw [if_neg (by simp [hk])]
        exact ih r hys hr'

theorem pilotEvents_of_strict (sel : List FlightRecord) (w : Nat)
    (h : (sel.map (fun r => r.flight_date)).Pairwise (· < ·)) :
    pilotEvents sel w = sel.map (fun r => (exitDate w r, hoursOf r)) := by
  have hexit : (sel.map (exitDate w)).Pairwise (· < ·) := by
    have hmap := List.Pairwise.map (fun d : Int => d + (w : Int))
      (fun a b hab => by omega : ∀ a b : Int, a < b → a + (w : Int) < b + (w : Int)) h
    rw [List.map_map] at hmap
    exact hmap
  have hnd : (sel.map (exitDate w)).Nodup := hexit.imp (fun hab => ne_of_lt hab)
  unfold pilotEvents
  rw [sortDedup_eq_self _ hexit, List.map_map]
  apply List.map_eq_map_iff.mpr
  intro r hr
  show (exitDate w r, eventHoursAt sel w (exitDate w r)) = _
  have hsingle : eventHoursAt sel w (exitDate w r) = hoursOf r := by
    unfold eventHoursAt
    rw [filter_key_eq_singleton (exitDate w) sel r hnd hr]
    simp
  rw [hsingle]

theorem runEvents_mapped (m : ℚ) (w : Nat) :
    ∀ (sel : List FlightRecord) (c : ℚ), c = sumH sel →
      (runEvents m c (sel.map (fun r => (exitDate w r, hoursOf r)))).1
        = (scanTail m sel).map (exitDate w) := by
  intro sel
  induction sel with
  | nil => intro c _; simp [runEvents_nil, scanTail]
  | cons r rest ih =>
      intro c hc
      rw [sumH_cons] at hc
      rw [List.map_cons, runEvents_cons]
      unfold scanTail
      have hcr : c - hoursOf r = sumH rest := by linarith
      by_cases hlt : sumH rest < m
      · rw [if_pos (by rw [hcr]; exact hlt), if_pos hlt]
        rfl
      · rw [if_neg (by rw [hcr]; exact hlt), if_neg hlt]
        rw [hcr] at *
        exact ih (sumH rest) rfl

theorem windowRecords_dates_pairwise (recs : List FlightRecord) (today : Int)
    (w : Nat) (h : (recs.map (fun r => r.flight_date)).Pairwise (· < ·)) :
    ((windowRecords recs today w).map (fun r => r.flight_date)).Pairwise (· < ·) := by
  apply List.Pairwise.sublist _ h
  exact List.Sublist.map _ (List.filter_sublist recs)

theorem scanTail_mem (m : ℚ) :
    ∀ (l : List FlightRecord) (r : FlightRecord), scanTail m l = some r → r ∈ l := by
  intro l
  induction l with
  | nil => intro r habs; simp [scanTail] at habs
  | cons y ys ih =>
      intro r hscan
      unfold scanTail at hscan
      by_cases hlt : sumH ys < m
      · rw [if_pos hlt] at hscan
        simp only [Option.some_inj] at hscan
        exact hscan ▸ List.mem_cons_self y ys
      · rw [if_neg hlt] at hscan
        exact List.mem_cons_of_mem y (ih r hscan)

theorem scanTail_eq_scanTailUpper (today : Int) (w : Nat) (m : ℚ) :
    ∀ (recs : List FlightRecord),
      (recs.map (fun r => r.flight_date)).Pairwise (· < ·) →
      ¬ sumH (windowRecords recs today w) < m →
      scanTail m (windowRecords recs today w) = scanTailUpper today m recs := by
  intro recs
  induction recs with
  | nil => intro _ _; rfl
  | cons r rest ih =>
      intro hpw hge
      rw [List.map_cons, List.pairwise_cons] at hpw
      rcases hpw with ⟨hlt, hpw'⟩
      have hrest : ∀ x ∈ rest, r.flight_date < x.flight_date := by
        intro x hx
        exact hlt x.flight_date (List.mem_map_of_mem _ hx)
      have hsel : windowRecords (r :: rest) today w
          = if inWindow today w r.flight_date then
              r :: windowRecords rest today w
            else windowRecords rest today w := by
        unfold windowRecords
        rw [List.filter_cons]
      unfold scanTailUpper
      by_cases hw : inWindow today w r.flight_date = true
      · rcases (inWindow_iff today w r.flight_date).mp hw with ⟨hlo, hhi⟩
        rw [hsel, if_pos hw]
        have hcong : windowRecords rest today w
            = rest.filter (fun x => decide (x.flight_date ≤ today)) := by
          unfold windowRecords
          apply List.filter_congr
          intro x hx
          unfold inWindow
          have : today - (w : Int) < x.flight_date := lt_trans hlo (hrest x hx)
          simp [this]
        have htail : tailHoursUpper today rest = sumH (windowRecords rest today w) := by
          unfold tailHoursUpper
          rw [hcong]
        unfold scanTail
        by_cases hdrop : sumH (windowRecords rest today w) < m
        · rw [if_pos hdrop, if_pos ⟨hhi, by rw [htail]; exact hdrop⟩]
        · rw [if_neg hdrop, if_neg (by rw [htail]; tauto)]
          exact ih hpw' hdrop
      · have hwf : inWindow today w r.flight_date = false := Bool.of_not_eq_true hw
        have hsel' : windowRecords (r :: rest) today w
            = windowRecords rest today w := by
          rw [hsel, hwf]
          simp
        rw [hsel'] at hge ⊢
        have hcond : ¬ (r.flight_date ≤ today ∧ tailHoursUpper today rest < m) := by
          rintro ⟨h1, h2⟩
          have hlow : r.flight_date ≤ today - (w : Int) := by
            by_contra hcon
            exact hw ((inWindow_iff today w r.flight_date).mpr ⟨lt_of_not_le hcon, h1⟩)
          have hle : sumH (windowRecords rest today w) ≤ tailHoursUpper today rest := by
            unfold tailHoursUpper windowRecords
            apply sumH_filter_le
            intro x hx
            rw [inWindow_iff] at hx
            simp [hx.2]
          exact hge (lt_of_le_of_lt hle h2)
        rw [if_neg hcond]
        exact ih hpw' hge

theorem windowTotal_mono (recs : List FlightRecord) (today : Int)
    (w w' : Nat) (hww : w ≤ w') :
    windowTotal recs today w ≤ windowTotal recs today w' := by
  rw [windowTotal_eq_sumH, windowTotal_eq_sumH]
  unfold windowRecords
  apply sumH_filter_le
  intro r hp
  rcases (inWindow_iff today w r.flight_date).mp hp with ⟨h1, h2⟩
  apply (inWindow_iff today w' r.flight_date).mpr
  constructor
  · omega
  · exact h2

theorem expire_compliant_char (recs : List FlightRecord) (today : Int)
    (w : Nat) (m : ℚ)
    (hinc : (recs.map (fun r => r.flight_date)).Pairwise (· < ·))
    (hc : ¬ windowTotal recs today w < m) :
    (complianceRow recs today w m).expire
      = (scanTailUpper today m recs).map (exitDate w) := by
  rw [complianceRow_compliant _ _ _ _ hc]
  simp only
  rw [pilotEvents_of_strict _ w (windowRecords_dates_pairwise recs today w hinc)]
  rw [runEvents_mapped m w _ _ (windowTotal_eq_sumH recs today w)]
  rw [scanTail_eq_scanTailUpper today w m recs hinc
    (by rw [← windowTotal_eq_sumH]; exact hc)]

/-- C7: for one pilot with strictly increasing flight dates and strictly
positive durations, holding records, reference date and minimum fixed, the
computed expiration is monotonically non-decreasing in the window length,
with the "Never" sentinel (`⊤` in `WithTop ℤ`) above every concrete date. -/
theorem C7_monotone_expiration (recs : List FlightRecord) (today : Int)
    (minH : ℚ) (w w' : Nat)
    (hinc : (recs.map (fun r => r.flight_date)).Pairwise (· < ·))
    (_hpos : ∀ r ∈ recs, 0 < r.vfr_minutes)
    (hww : w ≤ w') :
    expVal (complianceRow recs today w minH).expire
      ≤ expVal (complianceRow recs today w' minH).expire := by
  by_cases h1 : windowTotal recs today w < minH
  · rw [complianceRow_noncompliant _ _ _ _ h1]
    simp only
    by_cases h2 : windowTotal recs today w' < minH
    · rw [complianceRow_noncompliant _ _ _ _ h2]
    · rw [expire_compliant_char recs today w' minH hinc h2]
      cases hscan : scanTailUpper today minH recs with
      | none =>
          simp only [Option.map_none']
          exact le_top
      | some r =>
          have hmem : r ∈ windowRecords recs today w' := by
            apply scanTail_mem minH _ r
            rw [scanTail_eq_scanTailUpper today w' minH recs hinc
              (by rw [← windowTotal_eq_sumH]; exact h2)]
            exact hscan
          have hgt := exit_gt_today recs today w' r hmem
          simp only [Option.map_some']
          show (today : WithTop Int) ≤ ((exitDate w' r : Int) : WithTop Int)
          exact_mod_cast le_of_lt hgt
  · have h2 : ¬ windowTotal recs today w' < minH := fun hcon =>
      h1 (lt_of_le_of_lt (windowTotal_mono recs today w w' hww) hcon)
    rw [expire_compliant_char recs today w minH hinc h1,
        expire_compliant_char recs today w' minH hinc h2]
    cases hscan : scanTailUpper today minH recs with
    | none => simp [expVal]
    | some r =>
        simp only [Option.map_some']
        show ((exitDate w r : Int) : WithTop Int) ≤ ((exitDate w' r : Int) : WithTop Int)
        have : exitDate w r ≤ exitDate w' r := by
          unfold exitDate
          omega
        exact_mod_cast this

/-- C7 witness: the demo pilot at windows 60 and 70 days. -/
theorem C7_monotone_expiration_witness :
    expVal (complianceRow demoRecs 60 60 15).expire
      ≤ expVal (complianceRow demoRecs 60 70 15).expire :=
  C7_monotone_expiration demoRecs 60 15 60 70 (by decide) (by decide)
    (by norm_num)
